import Mathlib

/-!
Verification of the propositional-logic library (`lp/syntax.py`,
`operations.py`) against its design specification.

The expression model, operator metadata, rendering and the semantic
operations are translated directly from the Python source.  The
truth-table engine (`lp/interpreter.py`) is not part of the available
sources; the definitions that stand in for it are modelled from the
specification and are marked as such in their doc comments.
-/

namespace LP

/-- The expression tree of `lp/syntax.py`: a node is a propositional
symbol leaf (`PropositionalSymbol`), the unary `Negation`, or one of the
four binary operators (`Conjunction`, `Disjunction`, `Implication`,
`BiImplication`) with its arguments set. -/
inductive Formula where
  | PropositionalSymbol (value : String)
  | Negation (arg1 : Formula)
  | Conjunction (arg1 arg2 : Formula)
  | Disjunction (arg1 arg2 : Formula)
  | Implication (arg1 arg2 : Formula)
  | BiImplication (arg1 arg2 : Formula)
deriving DecidableEq, Repr

namespace Formula

/-- `Symbol.is_a(PropositionalSymbol)`: the node is a variable leaf. -/
def is_a_PropositionalSymbol : Formula → Bool
  | .PropositionalSymbol _ => true
  | _ => false

/-- `Symbol.is_a(Operator)`: the node is an operator (every non-leaf
node of the tree is an instance of an `Operator` subclass). -/
def is_a_Operator : Formula → Bool
  | .PropositionalSymbol _ => false
  | _ => true

/-- The `precendence` class attribute (source spelling) of the node's
operator class: `Negation` 6, `Conjunction` 5, `Disjunction` 4,
`Implication` 3, `BiImplication` 2.  A `PropositionalSymbol` has no such
attribute in the source; every access is guarded by `is_a(Operator)`, so
the value returned for it (0) is never consulted. -/
def precendence : Formula → Nat
  | .PropositionalSymbol _ => 0
  | .Negation _ => 6
  | .Conjunction _ _ => 5
  | .Disjunction _ _ => 4
  | .Implication _ _ => 3
  | .BiImplication _ _ => 2

/-- The condition of `BinaryOperator.str_representation` under which a
child `arg` is rendered without parentheses:
`arg.is_a(PropositionalSymbol) or (arg.is_a(Operator) and
self.precendence <= arg.precendence)`. -/
def bareCond (parentPrec : Nat) (arg : Formula) : Bool :=
  arg.is_a_PropositionalSymbol ||
    (arg.is_a_Operator && decide (parentPrec ≤ arg.precendence))

/-- `str_representation` of `lp/syntax.py`:
* a `PropositionalSymbol` renders as its value;
* `UnaryOperator.str_representation` renders `SYMBOL + arg` when the
  argument is a `PropositionalSymbol` and `SYMBOL + ( + arg + )`
  otherwise;
* `BinaryOperator.str_representation` renders each argument bare when
  `bareCond` holds for it and parenthesized otherwise, joined by the
  operator's `SYMBOL`. -/
def str_representation : Formula → String
  | .PropositionalSymbol v => v
  | .Negation a =>
      if a.is_a_PropositionalSymbol then
        "-" ++ str_representation a
      else
        "-" ++ ("(" ++ str_representation a ++ ")")
  | .Conjunction a b =>
      (if bareCond 5 a then str_representation a
       else "(" ++ str_representation a ++ ")") ++ "&" ++
      (if bareCond 5 b then str_representation b
       else "(" ++ str_representation b ++ ")")
  | .Disjunction a b =>
      (if bareCond 4 a then str_representation a
       else "(" ++ str_representation a ++ ")") ++ "|" ++
      (if bareCond 4 b then str_representation b
       else "(" ++ str_representation b ++ ")")
  | .Implication a b =>
      (if bareCond 3 a then str_representation a
       else "(" ++ str_representation a ++ ")") ++ "->" ++
      (if bareCond 3 b then str_representation b
       else "(" ++ str_representation b ++ ")")
  | .BiImplication a b =>
      (if bareCond 2 a then str_representation a
       else "(" ++ str_representation a ++ ")") ++ "<->" ++
      (if bareCond 2 b then str_representation b
       else "(" ++ str_representation b ++ ")")

/-- The per-child rendering step of `BinaryOperator.str_representation`:
`arg_repr` is the child's own representation when `bareCond` holds and
the parenthesized representation otherwise. -/
def binChildRepr (parentPrec : Nat) (arg : Formula) : String :=
  if bareCond parentPrec arg then str_representation arg
  else "(" ++ str_representation arg ++ ")"

/-- `subformulas` of `lp/syntax.py`: a `PropositionalSymbol` returns
`[self]`; a `UnaryOperator` returns itself followed by the subformulas
of its argument; a `BinaryOperator` returns itself followed by the
subformulas of its first and then its second argument. -/
def subformulas : Formula → List Formula
  | .PropositionalSymbol v => [.PropositionalSymbol v]
  | .Negation a => .Negation a :: subformulas a
  | .Conjunction a b => .Conjunction a b :: (subformulas a ++ subformulas b)
  | .Disjunction a b => .Disjunction a b :: (subformulas a ++ subformulas b)
  | .Implication a b => .Implication a b :: (subformulas a ++ subformulas b)
  | .BiImplication a b => .BiImplication a b :: (subformulas a ++ subformulas b)

/-- Number of nodes of the expression tree. -/
def nodeCount : Formula → Nat
  | .PropositionalSymbol _ => 1
  | .Negation a => 1 + nodeCount a
  | .Conjunction a b => 1 + nodeCount a + nodeCount b
  | .Disjunction a b => 1 + nodeCount a + nodeCount b
  | .Implication a b => 1 + nodeCount a + nodeCount b
  | .BiImplication a b => 1 + nodeCount a + nodeCount b

end Formula

/-- `Operator.Associativity` of `lp/syntax.py`: `LEFT = 1`, `RIGHT = 0`. -/
def Associativity.LEFT : Nat := 1

/-- `Operator.Associativity.RIGHT = 0`. -/
def Associativity.RIGHT : Nat := 0

/-- The five concrete operator classes of `lp/syntax.py`. -/
inductive OperatorKind where
  | NegationOp
  | ConjunctionOp
  | DisjunctionOp
  | ImplicationOp
  | BiImplicationOp
deriving DecidableEq, Repr

namespace OperatorKind

/-- The `SYMBOL` class attribute of each operator class. -/
def SYMBOL : OperatorKind → String
  | .NegationOp => "-"
  | .ConjunctionOp => "&"
  | .DisjunctionOp => "|"
  | .ImplicationOp => "->"
  | .BiImplicationOp => "<->"

/-- Operator arity: `Negation` subclasses `UnaryOperator` (one argument,
set by `set_arg`); the other four subclass `BinaryOperator` (two
arguments, set by `set_args`). -/
def arity : OperatorKind → Nat
  | .NegationOp => 1
  | _ => 2

/-- The `precendence` class attribute of each operator class. -/
def precendence : OperatorKind → Nat
  | .NegationOp => 6
  | .ConjunctionOp => 5
  | .DisjunctionOp => 4
  | .ImplicationOp => 3
  | .BiImplicationOp => 2

/-- The `associativity` class attribute of each operator class. -/
def associativity : OperatorKind → Nat
  | .NegationOp => Associativity.RIGHT
  | _ => Associativity.LEFT

end OperatorKind

/-! ### Lexical recognizers

The recognizers of `lp/syntax.py` are regular-expression patterns,
matched in full by `Symbol.evaluate`, which anchors the class pattern as
`^pattern$` and calls `re.match`.  They are embedded here as boolean
functions on character lists with the anchored-match semantics of the
patterns, character class by character class. -/

/-- The character class `[a-z]`. -/
def isLowercaseChar (c : Char) : Bool := 'a' ≤ c && c ≤ 'z'

/-- The character class `[0-9]`. -/
def isDigitChar (c : Char) : Bool := '0' ≤ c && c ≤ '9'

/-- Python's anchoring semantics of `Symbol.evaluate`'s
`re.match(r'^pattern$', s)` (no `re.MULTILINE`): `^` matches at the
start of the string and `$` matches at the end of the string or just
before a newline that is the string's last character.  So the anchored
match succeeds exactly when the pattern body matches the whole string,
or the string ends in `'\n'` and the body matches everything before
that trailing newline. -/
def dollarAnchored (body : List Char → Bool) (s : List Char) : Bool :=
  body s || (s.getLast? == some '\n' && body s.dropLast)

/-- The body of `PropositionalSymbol.pattern`, `([a-z]{1}[0-9]*)`,
matched against an entire string: one lowercase letter followed by zero
or more digits. -/
def propositionalSymbolBody : List Char → Bool
  | [] => false
  | c :: rest => isLowercaseChar c && rest.all isDigitChar

/-- `Symbol.evaluate` with `PropositionalSymbol.pattern`: the body
`([a-z]{1}[0-9]*)` anchored as `^([a-z]{1}[0-9]*)$`, with Python's
`$`-before-trailing-newline semantics. -/
def propositionalSymbolEvaluate (s : List Char) : Bool :=
  dollarAnchored propositionalSymbolBody s

/-- The character class `[a-z0-9&\-\|><\(\)]` of `Symbol.pattern`. -/
def symbolAcceptedChar (c : Char) : Bool :=
  isLowercaseChar c || isDigitChar c || c == '&' || c == '-' || c == '|' ||
    c == '>' || c == '<' || c == '(' || c == ')'

/-- The body of `Symbol.pattern`, `([a-z0-9&\-\|><\(\)]*)`, matched
against an entire string: every character belongs to the accepted
class, the empty string included (star quantifier). -/
def symbolBody (s : List Char) : Bool := s.all symbolAcceptedChar

/-- `Symbol.evaluate` with `Symbol.pattern`: the body anchored as
`^([a-z0-9&\-\|><\(\)]*)$`, with Python's
`$`-before-trailing-newline semantics. -/
def symbolEvaluate (s : List Char) : Bool := dollarAnchored symbolBody s

/-! ### Truth-table engine

The engine lives in `lp/interpreter.py`, which is not among the
available sources; these definitions are modelled from §3 and §4.4 of
the specification. -/

/-- Modelled from the spec: the variable names occurring in a formula,
in order of occurrence, duplicates included (collected via
`subformulas()` in §4.4). -/
def varsOf : Formula → List String
  | .PropositionalSymbol v => [v]
  | .Negation a => varsOf a
  | .Conjunction a b => varsOf a ++ varsOf b
  | .Disjunction a b => varsOf a ++ varsOf b
  | .Implication a b => varsOf a ++ varsOf b
  | .BiImplication a b => varsOf a ++ varsOf b

/-- Modelled from the spec: de-duplication keeping the first occurrence
of each name, giving the fixed deterministic variable order of §4.4. -/
def dedupFirst (l : List String) : List String :=
  l.foldl (fun acc v => if v ∈ acc then acc else acc ++ [v]) []

/-- Modelled from the spec: `variables_of(expressions)` — the union of
the variable names of all given expressions, de-duplicated, in first
occurrence order (§4.4). -/
def variablesOf (formulas : List Formula) : List String :=
  dedupFirst (formulas.flatMap varsOf)

/-- A valuation: an assignment of booleans to variable names, as an
association list (§3, **Valuation**). -/
abbrev Valuation := List (String × Bool)

/-- Modelled from the spec: variable lookup in a valuation.  §4.4 makes
an unbound variable an internal error that can never occur because the
valuation is total over the collected variable universe; the default
`false` here is likewise never consulted. -/
def lookupVar (val : Valuation) (x : String) : Bool :=
  match val.find? (fun p => p.1 == x) with
  | some p => p.2
  | none => false

/-- Modelled from the spec: the canonical enumeration of all valuations
over an ordered variable list (§4.4) — a binary counter with the first
variable as most significant bit, `true` in the first half of the
rows. -/
def allValuations : List String → List Valuation
  | [] => [[]]
  | v :: vs =>
      (allValuations vs).map (fun val => (v, true) :: val) ++
      (allValuations vs).map (fun val => (v, false) :: val)

/-- Modelled from the spec: `evaluate(expression, valuation)` —
structural recursion with the standard two-valued truth functions
(§4.4). -/
def evalFormula (val : Valuation) : Formula → Bool
  | .PropositionalSymbol v => lookupVar val v
  | .Negation a => !evalFormula val a
  | .Conjunction a b => evalFormula val a && evalFormula val b
  | .Disjunction a b => evalFormula val a || evalFormula val b
  | .Implication a b => !evalFormula val a || evalFormula val b
  | .BiImplication a b => evalFormula val a == evalFormula val b

/-- Modelled from the spec: the rows of the shared truth table built
over the union of the variables of the given formulas
(`build_table`, §4.4), in canonical enumeration order. -/
def tableRows (formulas : List Formula) : List Valuation :=
  allValuations (variablesOf formulas)

/-- Modelled from the spec: `models_of(table, expression)` — the row
indices of the table at which the expression evaluates to true
(§4.4). -/
def modelIndices (rows : List Valuation) (f : Formula) : List Nat :=
  (List.range rows.length).filter (fun i => evalFormula (rows.getD i []) f)

/-- Modelled from the spec: `common_models(table, expressions)` — the
row indices at which all given expressions evaluate to true; the full
index set when the expression list is empty (§4.4). -/
def commonModelIndices (rows : List Valuation) (formulas : List Formula) :
    List Nat :=
  (List.range rows.length).filter
    (fun i => formulas.all (fun f => evalFormula (rows.getD i []) f))

/-- Modelled from the spec: the column of truth values of a single
formula in its own single-formula table
(`TruthTable.get_formula_valuations`, one value per row, in canonical
row order). -/
def formulaValues (f : Formula) : List Bool :=
  (tableRows [f]).map (fun val => evalFormula val f)

/-! ### Semantic operations (`operations.py`)

Each operation's verdict computation is translated from
`operations.py`; the truth-table values it consumes come from the
spec-modelled engine above.  The table-rendering halves of the Python
return strings are outside the covered core and are not modelled. -/

/-- `SemanticStatus.check_status`: `tautology` iff `True` occurs and
`False` does not among the formula's row values; `contradiction` iff
`False` occurs and `True` does not; the status string is `TAUTOLOGIA`,
`CONTRADICAO` or `CONTINGENCIA` accordingly. -/
def check_status (formula_values : List Bool) : String :=
  if true ∈ formula_values ∧ false ∉ formula_values then "TAUTOLOGIA"
  else if false ∈ formula_values ∧ true ∉ formula_values then "CONTRADICAO"
  else "CONTINGENCIA"

/-- `SemanticStatus.perform`'s verdict: the status of the formula's own
single-formula table column. -/
def semanticStatus (f : Formula) : String :=
  check_status (formulaValues f)

/-- `SemanticEquivalence.check_equivalence`'s verdict: over the shared
table of the two formulas, every model index of the first must lie in
the second's model set and vice versa (the Python breaks out of either
loop at the first missing index, leaving `equivalent = False`). -/
def check_equivalence (f1 f2 : Formula) : Bool :=
  let rows := tableRows [f1, f2]
  let models1 := modelIndices rows f1
  let models2 := modelIndices rows f2
  models1.all (fun i => decide (i ∈ models2)) &&
    models2.all (fun i => decide (i ∈ models1))

/-- `LogicConsequence.perform`'s verdict on a premise set that is not
the single-empty-string representation of the empty set: over the
shared table of premises and conclusion, `SIM` when every index in the
premises' common model set lies in the conclusion's model set, `NAO`
otherwise (the loop breaks at the first missing index). -/
def logicConsequencePerform (formulas_set : List Formula)
    (formula : Formula) : String :=
  let rows := tableRows (formulas_set ++ [formula])
  let set_models := commonModelIndices rows formulas_set
  let formula_models := modelIndices rows formula
  if ∀ i ∈ set_models, i ∈ formula_models then "SIM" else "NAO"

/-- `LogicConsequence.is_logic_consequence_of_empty_set`: `SIM` when no
row of the formula's own single-formula table evaluates to `False`,
`NAO` otherwise (the loop breaks at the first `False` row). -/
def is_logic_consequence_of_empty_set (f : Formula) : String :=
  if false ∈ formulaValues f then "NAO" else "SIM"

/-! ### Helper lemmas -/

open Formula

theorem allValuations_length (vs : List String) :
    (allValuations vs).length = 2 ^ vs.length := by
  induction vs with
  | nil => rfl
  | cons v vs ih =>
      simp [allValuations, ih, Nat.pow_succ]
      omega

theorem formulaValues_ne_nil (f : Formula) : formulaValues f ≠ [] := by
  unfold formulaValues tableRows
  intro hc
  have hlen := congrArg List.length hc
  simp only [List.length_map, List.length_nil, allValuations_length] at hlen
  have hp : 0 < 2 ^ (variablesOf [f]).length := pow_pos (by omega) _
  omega

theorem subformulas_length (e : Formula) :
    (subformulas e).length = nodeCount e := by
  induction e <;> simp [subformulas, nodeCount, *] <;> omega

theorem subformulas_head (e : Formula) :
    (subformulas e).head? = some e := by
  cases e <;> rfl

theorem bareCond_iff (prec : Nat) (arg : Formula) :
    bareCond prec arg = true ↔
      (arg.is_a_PropositionalSymbol = true ∨ prec ≤ arg.precendence) := by
  cases arg <;>
    simp [bareCond, is_a_PropositionalSymbol, is_a_Operator, precendence]

theorem dollarAnchored_iff (body : List Char → Bool) (s : List Char) :
    dollarAnchored body s = true ↔
      (body s = true ∨ ∃ m, s = m ++ ['\n'] ∧ body m = true) := by
  unfold dollarAnchored
  simp only [Bool.or_eq_true, Bool.and_eq_true, beq_iff_eq]
  constructor
  · rintro (h | ⟨hlast, hbody⟩)
    · exact Or.inl h
    · rcases List.eq_nil_or_concat s with rfl | ⟨L, b, rfl⟩
      · simp at hlast
      · simp only [List.concat_eq_append] at hlast hbody ⊢
        rw [List.getLast?_concat] at hlast
        obtain rfl : b = '\n' := by injection hlast
        rw [List.dropLast_concat] at hbody
        exact Or.inr ⟨L, rfl, hbody⟩
  · rintro (h | ⟨m, rfl, hm⟩)
    · exact Or.inl h
    · refine Or.inr ⟨?_, ?_⟩
      · rw [List.getLast?_concat]
      · rw [List.dropLast_concat]
        exact hm

theorem propositionalSymbolBody_iff (s : List Char) :
    propositionalSymbolBody s = true ↔
      ∃ c rest, s = c :: rest ∧ isLowercaseChar c = true ∧
        ∀ d ∈ rest, isDigitChar d = true := by
  cases s with
  | nil => simp [propositionalSymbolBody]
  | cons c rest =>
      simp only [propositionalSymbolBody, Bool.and_eq_true, List.all_eq_true]
      constructor
      · rintro ⟨h1, h2⟩
        exact ⟨c, rest, rfl, h1, h2⟩
      · rintro ⟨c', rest', heq, h1, h2⟩
        injection heq with hc hr
        subst hc; subst hr
        exact ⟨h1, h2⟩

theorem paren_ne_bare (s : String) : "(" ++ s ++ ")" ≠ s := by
  intro h
  have h2 := congrArg String.length h
  rw [String.length_append, String.length_append] at h2
  have e1 : "(".length = 1 := rfl
  have e2 : ")".length = 1 := rfl
  omega

/-! ### Claim theorems -/

/-- C2: `check_status` returns `TAUTOLOGIA` iff some row value is true
and none false, `CONTRADICAO` iff some value is false and none true,
and `CONTINGENCIA` in every other case, including the empty value
list. -/
theorem check_status_spec :
    (∀ vals : List Bool,
      (check_status vals = "TAUTOLOGIA" ↔ (true ∈ vals ∧ false ∉ vals)) ∧
      (check_status vals = "CONTRADICAO" ↔ (false ∈ vals ∧ true ∉ vals)) ∧
      (check_status vals = "CONTINGENCIA" ↔
        (¬(true ∈ vals ∧ false ∉ vals) ∧ ¬(false ∈ vals ∧ true ∉ vals)))) ∧
    check_status [] = "CONTINGENCIA" := by
  refine ⟨?_, by decide⟩
  intro vals
  unfold check_status
  split_ifs with h1 h2
  · exact ⟨iff_of_true rfl h1, iff_of_false (by decide) (fun hc => hc.2 h1.1),
      iff_of_false (by decide) (fun hc => hc.1 h1)⟩
  · exact ⟨iff_of_false (by decide) h1, iff_of_true rfl h2,
      iff_of_false (by decide) (fun hc => hc.2 h2)⟩
  · exact ⟨iff_of_false (by decide) h1, iff_of_false (by decide) h2,
      iff_of_true rfl ⟨h1, h2⟩⟩

/-- C6: the five operator classes carry exactly the metadata the spec
fixes — token, arity, precedence and associativity. -/
theorem operator_metadata :
    OperatorKind.NegationOp.SYMBOL = "-" ∧
    OperatorKind.NegationOp.arity = 1 ∧
    OperatorKind.NegationOp.precendence = 6 ∧
    OperatorKind.NegationOp.associativity = Associativity.RIGHT ∧
    OperatorKind.ConjunctionOp.SYMBOL = "&" ∧
    OperatorKind.ConjunctionOp.arity = 2 ∧
    OperatorKind.ConjunctionOp.precendence = 5 ∧
    OperatorKind.ConjunctionOp.associativity = Associativity.LEFT ∧
    OperatorKind.DisjunctionOp.SYMBOL = "|" ∧
    OperatorKind.DisjunctionOp.arity = 2 ∧
    OperatorKind.DisjunctionOp.precendence = 4 ∧
    OperatorKind.DisjunctionOp.associativity = Associativity.LEFT ∧
    OperatorKind.ImplicationOp.SYMBOL = "->" ∧
    OperatorKind.ImplicationOp.arity = 2 ∧
    OperatorKind.ImplicationOp.precendence = 3 ∧
    OperatorKind.ImplicationOp.associativity = Associativity.LEFT ∧
    OperatorKind.BiImplicationOp.SYMBOL = "<->" ∧
    OperatorKind.BiImplicationOp.arity = 2 ∧
    OperatorKind.BiImplicationOp.precendence = 2 ∧
    OperatorKind.BiImplicationOp.associativity = Associativity.LEFT := by
  decide

/-- C7: `subformulas` is the pre-order listing of the tree — the node
itself first, then the subformulas of the first argument, then (for
binary nodes) those of the second — with duplicates kept, and a
variable leaf yields exactly the one-element list of itself. -/
theorem subformulas_preorder :
    (∀ v, subformulas (.PropositionalSymbol v) = [.PropositionalSymbol v]) ∧
    (∀ a, subformulas (.Negation a) = .Negation a :: subformulas a) ∧
    (∀ a b, subformulas (.Conjunction a b) =
      .Conjunction a b :: (subformulas a ++ subformulas b)) ∧
    (∀ a b, subformulas (.Disjunction a b) =
      .Disjunction a b :: (subformulas a ++ subformulas b)) ∧
    (∀ a b, subformulas (.Implication a b) =
      .Implication a b :: (subformulas a ++ subformulas b)) ∧
    (∀ a b, subformulas (.BiImplication a b) =
      .BiImplication a b :: (subformulas a ++ subformulas b)) ∧
    subformulas
        (.Conjunction (.PropositionalSymbol "p") (.PropositionalSymbol "p")) =
      [.Conjunction (.PropositionalSymbol "p") (.PropositionalSymbol "p"),
       .PropositionalSymbol "p", .PropositionalSymbol "p"] :=
  ⟨fun _ => rfl, fun _ => rfl, fun _ _ => rfl, fun _ _ => rfl,
   fun _ _ => rfl, fun _ _ => rfl, rfl⟩

/-- C8 counterexample: the anchored variable pattern accepts the token
`p\n`, which is not one lowercase letter followed by digits — Python's
`$` matches just before the trailing newline, so `re.match` succeeds on
the truncated prefix `p` instead of rejecting the token outright. -/
theorem propositionalSymbol_newline_counterexample :
    propositionalSymbolEvaluate ['p', '\n'] = true ∧
    ¬ ∃ c rest, (['p', '\n'] : List Char) = c :: rest ∧
        isLowercaseChar c = true ∧ ∀ d ∈ rest, isDigitChar d = true := by
  refine ⟨by decide, ?_⟩
  rintro ⟨c, rest, heq, h1, h2⟩
  injection heq with hc hr
  subst hc; subst hr
  exact absurd (h2 '\n' (List.mem_cons_self _ _)) (by decide)

/-- C8 amended: the anchored variable pattern accepts exactly the
strings made of one lowercase ASCII letter followed by zero or more
ASCII digits, possibly followed by one trailing newline (which Python's
`$` anchor permits, matching the letter-digits prefix); every other
token beginning with a lowercase letter, such as `pq` or `pq\n`, is
rejected. -/
theorem propositionalSymbol_pattern_amended :
    (∀ s : List Char, propositionalSymbolEvaluate s = true ↔
      ∃ c rest, (s = c :: rest ∨ s = c :: (rest ++ ['\n'])) ∧
        isLowercaseChar c = true ∧ ∀ d ∈ rest, isDigitChar d = true) ∧
    propositionalSymbolEvaluate ['p', '\n'] = true ∧
    propositionalSymbolEvaluate ['p', 'q'] = false ∧
    propositionalSymbolEvaluate ['p', 'q', '\n'] = false ∧
    propositionalSymbolEvaluate ['p', '2', '3'] = true := by
  refine ⟨?_, by decide, by decide, by decide, by decide⟩
  intro s
  unfold propositionalSymbolEvaluate
  rw [dollarAnchored_iff]
  constructor
  · rintro (h | ⟨m, rfl, hm⟩)
    · obtain ⟨c, rest, rfl, h1, h2⟩ := (propositionalSymbolBody_iff _).mp h
      exact ⟨c, rest, Or.inl rfl, h1, h2⟩
    · obtain ⟨c, rest, rfl, h1, h2⟩ := (propositionalSymbolBody_iff _).mp hm
      exact ⟨c, rest, Or.inr (by simp), h1, h2⟩
  · rintro ⟨c, rest, (rfl | rfl), h1, h2⟩
    · exact Or.inl
        ((propositionalSymbolBody_iff _).mpr ⟨c, rest, rfl, h1, h2⟩)
    · exact Or.inr ⟨c :: rest, by simp,
        (propositionalSymbolBody_iff _).mpr ⟨c, rest, rfl, h1, h2⟩⟩

/-- C9: the general formula character-class pattern, anchored, accepts
the empty string: its star quantifier matches zero characters, so this
check alone never rejects an empty formula string. -/
theorem symbolEvaluate_empty : symbolEvaluate [] = true := rfl

/-- C10: for every expression, `subformulas` returns a non-empty list
whose first element is the expression itself, and whose length equals
the number of nodes of the expression tree, hence is at least 1. -/
theorem subformulas_self_first (e : Formula) :
    (subformulas e).head? = some e ∧
    (subformulas e).length = nodeCount e ∧
    1 ≤ (subformulas e).length := by
  refine ⟨subformulas_head e, subformulas_length e, ?_⟩
  rw [subformulas_length]
  cases e <;> simp [nodeCount] <;> omega

/-- C1 counterexample: `Negation` of a `Negation` is rendered with the
inner negation parenthesized, `-(-p)`, not bare as `--p` — the unary
renderer parenthesizes every non-variable child, even one of equal
precedence. -/
theorem render_negneg_counterexample :
    str_representation
        (.Negation (.Negation (.PropositionalSymbol "p"))) = "-(-p)" ∧
    str_representation
        (.Negation (.Negation (.PropositionalSymbol "p"))) ≠ "--p" := by
  decide

/-- C1 amended: a binary operator node renders a child bare exactly
when the child is a propositional variable or an operator of precedence
greater than or equal to the parent's; a `Negation` node renders its
child bare exactly when the child is a propositional variable, so
`Not(Not(p))` renders as `-(-p)`. -/
theorem render_parenthesization :
    (∀ prec arg, binChildRepr prec arg = str_representation arg ↔
      (arg.is_a_PropositionalSymbol = true ∨ prec ≤ arg.precendence)) ∧
    (∀ arg, str_representation (.Negation arg) =
        "-" ++ str_representation arg ↔
      arg.is_a_PropositionalSymbol = true) ∧
    str_representation
        (.Negation (.Negation (.PropositionalSymbol "p"))) = "-(-p)" := by
  refine ⟨?_, ?_, by decide⟩
  · intro prec arg
    unfold binChildRepr
    split_ifs with h
    · exact iff_of_true rfl ((bareCond_iff prec arg).mp h)
    · exact iff_of_false (paren_ne_bare _)
        (fun hc => h ((bareCond_iff prec arg).mpr hc))
  · intro arg
    show (if arg.is_a_PropositionalSymbol then "-" ++ str_representation arg
          else "-" ++ ("(" ++ str_representation arg ++ ")")) =
        "-" ++ str_representation arg ↔ _
    split_ifs with h
    · exact iff_of_true rfl h
    · refine iff_of_false (fun hc => ?_) h
      have h2 := congrArg String.length hc
      rw [String.length_append, String.length_append, String.length_append,
        String.length_append] at h2
      have e1 : "(".length = 1 := rfl
      have e2 : ")".length = 1 := rfl
      omega

/-- C3: the equivalence check over the shared truth table of the two
formulas returns true exactly when the two formulas' model sets (row
indices where each is true) coincide, both inclusions being checked. -/
theorem check_equivalence_spec (f1 f2 : Formula) :
    check_equivalence f1 f2 = true ↔
      (∀ i, i ∈ modelIndices (tableRows [f1, f2]) f1 ↔
            i ∈ modelIndices (tableRows [f1, f2]) f2) := by
  unfold check_equivalence
  simp only [Bool.and_eq_true, List.all_eq_true, decide_eq_true_eq]
  constructor
  · rintro ⟨h1, h2⟩ i
    exact ⟨fun hi => h1 i hi, fun hi => h2 i hi⟩
  · intro h
    exact ⟨fun i hi => (h i).1 hi, fun i hi => (h i).2 hi⟩

/-- C4: on a premise set handled by the main path, logical consequence
is affirmed (`SIM`) exactly when every row index in the premises'
common model set, over the shared table of premises and conclusion, is
also in the conclusion's model set, and the verdict is `NAO`
otherwise. -/
theorem logicConsequence_spec (ps : List Formula) (f : Formula) :
    (logicConsequencePerform ps f = "SIM" ↔
      ∀ i ∈ commonModelIndices (tableRows (ps ++ [f])) ps,
        i ∈ modelIndices (tableRows (ps ++ [f])) f) ∧
    (logicConsequencePerform ps f = "NAO" ↔
      ¬ ∀ i ∈ commonModelIndices (tableRows (ps ++ [f])) ps,
        i ∈ modelIndices (tableRows (ps ++ [f])) f) := by
  unfold logicConsequencePerform
  dsimp only
  split_ifs with h
  · exact ⟨iff_of_true rfl h, iff_of_false (by decide) (fun hc => hc h)⟩
  · exact ⟨iff_of_false (by decide) h, iff_of_true rfl h⟩

/-- C5: logical consequence from the empty premise set is affirmed
exactly when no row of the formula's own table is false, which — the
table never being empty — coincides with the status check classifying
the formula as a tautology. -/
theorem empty_set_consequence_iff_tautology (f : Formula) :
    is_logic_consequence_of_empty_set f = "SIM" ↔
      semanticStatus f = "TAUTOLOGIA" := by
  have hne := formulaValues_ne_nil f
  unfold is_logic_consequence_of_empty_set semanticStatus check_status
  by_cases hf : false ∈ formulaValues f
  · rw [if_pos hf, if_neg (fun hc => hc.2 hf)]
    constructor
    · intro h; exact absurd h (by decide)
    · intro h; split_ifs at h <;> exact absurd h (by decide)
  · rw [if_neg hf]
    have htrue : true ∈ formulaValues f := by
      cases hv : formulaValues f with
      | nil => exact absurd hv hne
      | cons b rest =>
          cases b
          · exact absurd (hv ▸ List.mem_cons_self false rest) hf
          · exact List.mem_cons_self true rest
    rw [if_pos ⟨htrue, hf⟩]
    exact iff_of_true rfl rfl

end LP
